import Mathlib

/-!
Shallow embedding of Birli's visibility ingestion and correction engine
(src/corrections.rs and the cube builder `context_to_jones_array` in
src/lib.rs), together with theorems settling the specification claims.

Modelling conventions:

* Floating-point scalars (`f32`/`f64`) are modelled by an abstract commutative
  ring `K`.  The double-precision trigonometric evaluation
  `angle.sin_cos()` and the constants `PI` and `VEL_C` of
  `src/corrections.rs` are supplied by a `Trig K` structure (fields `cos`,
  `sin`, `pi`, `invC`); the intended instantiation is `K := ℝ` with
  `Real.cos`/`Real.sin`, and theorems that need the Pythagorean identity
  take it as an explicit hypothesis on the model.  Division by the speed of
  light `/ VEL_C` is modelled as multiplication by the constant `invC`.
  Witness theorems instantiate `K := ℤ`, which keeps every definition
  computable and every concrete evaluation decidable.

* `ndarray::Array3<Jones<f32>>` (axes timestep, channel, baseline) is
  modelled as a `Cube K`: the three dimensions plus a total data function.
  In-place mutation becomes a function from cubes to cubes.

* The iteration skeletons of the source are zip-based
  (`axis_iter_mut(..).zip(..)`): both ndarray/rayon `zip` and `itertools`
  `izip!` truncate to the shorter operand, so a view with index `i` is
  visited exactly when `i` is below both lengths.  Pointwise, a cell is
  rewritten exactly when its indices satisfy the corresponding `min`
  bounds; all other cells keep their previous value.  Threading
  (`into_par_iter`, `thread::scope`) only distributes disjoint slices, so
  the sequential pointwise description below is the unique result.

* Rust slice indexing `antennas[i]` / `tiles[i]` (which panics when out of
  range) is modelled with `List.getD`; every claim below only exercises
  in-range indices.  Progress bars and `trace!`/`warn!` logging are pure
  presentation and are not modelled.
-/

namespace Birli

/-- Complex number over the scalar ring `K`, modelling `num_complex::Complex`
(`c32` in the source). -/
structure Cplx (K : Type) where
  re : K
  im : K
deriving DecidableEq

/-- Complex multiplication, modelling `*pol_complex *= rotation`
(src/corrections.rs line 135) and `*jones *= Complex::new(..)` (line 273):
`(a+bi)(c+di) = (ac - bd) + (ad + bc)i`. -/
def cmul {K : Type} [CommRing K] (z w : Cplx K) : Cplx K :=
  ⟨z.re * w.re - z.im * w.im, z.re * w.im + z.im * w.re⟩

/-- Squared complex magnitude `re^2 + im^2`; `|z| = sqrt (normSq z)`, so two
complex values have equal magnitude iff they have equal `normSq`. -/
def normSq {K : Type} [CommRing K] (z : Cplx K) : K :=
  z.re * z.re + z.im * z.im

/-- One visibility sample: the four complex polarization products of a
`Jones<f32>` matrix, in the component order of `jones.iter_mut()`:
`[XX, XY, YX, YY]`. -/
structure Jones (K : Type) where
  xx : Cplx K
  xy : Cplx K
  yx : Cplx K
  yy : Cplx K
deriving DecidableEq

/-- The zero Jones matrix, `Jones::default()`: the fill value of the cube. -/
def jonesZero {K : Type} [CommRing K] : Jones K := ⟨⟨0, 0⟩, ⟨0, 0⟩, ⟨0, 0⟩, ⟨0, 0⟩⟩

/-- Abstract model of the double-precision trigonometry and physical
constants used by the corrections: `cos`/`sin` stand for `f64::sin_cos`,
`pi` for `std::f64::consts::PI` and `invC` for `1 / VEL_C`.  The intended
instantiation is `ℝ` with `Real.cos`, `Real.sin`, `Real.pi`,
`(299792458 : ℝ)⁻¹`. -/
structure Trig (K : Type) where
  cos : K → K
  sin : K → K
  pi : K
  invC : K

/-- Antenna electrical lengths in metres:
`antenna.rfinput_x.electrical_length_m` and
`antenna.rfinput_y.electrical_length_m`. -/
structure Antenna (K : Type) where
  lenX : K
  lenY : K
deriving DecidableEq

/-- A baseline: the ordered pair of antenna indices
(`baseline.ant1_index`, `baseline.ant2_index`). -/
structure Baseline where
  ant1 : Nat
  ant2 : Nat
deriving DecidableEq

/-- The metadata consumed by `correct_cable_lengths`:
`context.metafits_context.antennas` and
`context.metafits_context.baselines`. -/
structure CableCtx (K : Type) where
  antennas : List (Antenna K)
  baselines : List Baseline

/-- The visibility cube `Array3<Jones<f32>>` with axes
(timestep, channel, baseline): recorded dimensions plus a total data
function (cells outside the dimensions are phantom and never observed). -/
structure Cube (K : Type) where
  dimT : Nat
  dimC : Nat
  dimB : Nat
  data : Nat → Nat → Nat → Jones K

/-- The phase angle of src/corrections.rs line 127:
`-2.0 * PI * electrical_length_m * (freq_hz as f64) / VEL_C`. -/
def cableAngle {K : Type} [CommRing K] (T : Trig K) (len f : K) : K :=
  (-2 : K) * T.pi * len * f * T.invC

/-- The rotation factor of src/corrections.rs lines 128-129:
`Complex::new(cos_angle, sin_angle)` for the cable angle. -/
def cableRotation {K : Type} [CommRing K] (T : Trig K) (len f : K) : Cplx K :=
  ⟨T.cos (cableAngle T len f), T.sin (cableAngle T len f)⟩

/-- The per-sample update of src/corrections.rs lines 113-137.  The code
builds `pol_lengths` in the order

`[x2 - x1, y2 - y1, y2 - x1, x2 - y1]`   (lines 113-118)

maps each entry to its rotation factor (`pol_sin_cos`, lines 124-131), and
zips that list against the Jones components `[XX, XY, YX, YY]`
(`jones.iter_mut().zip(pol_sin_cos.iter())`, line 134).  So XX is rotated
with `x2 - x1`, XY with `y2 - y1`, YX with `y2 - x1` and YY with
`x2 - y1`. -/
def correctedJones {K : Type} [CommRing K] (T : Trig K) (a1 a2 : Antenna K)
    (f : K) (j : Jones K) : Jones K :=
  ⟨cmul j.xx (cableRotation T (a2.lenX - a1.lenX) f),
   cmul j.xy (cableRotation T (a2.lenY - a1.lenY) f),
   cmul j.yx (cableRotation T (a2.lenY - a1.lenX) f),
   cmul j.yy (cableRotation T (a2.lenX - a1.lenY) f)⟩

/-- The body executed for one in-range baseline view of
`correct_cable_lengths` (src/corrections.rs lines 104-138): skip
autocorrelations (lines 105-107); otherwise pair the channel views of the
baseline slice with `all_freqs_hz` (zip truncation, lines 120-122) and
rotate every timestep entry of an in-range channel with the four
per-polarization rotation factors. -/
def cableCorrectedCell {K : Type} [CommRing K] (T : Trig K) (ctx : CableCtx K)
    (freqs : List K) (cube : Cube K) (t c b : Nat) : Jones K :=
  let bl := ctx.baselines.getD b ⟨0, 0⟩
  if bl.ant1 = bl.ant2 then cube.data t c b
  else if c < cube.dimC ∧ c < freqs.length then
    correctedJones T (ctx.antennas.getD bl.ant1 ⟨0, 0⟩)
      (ctx.antennas.getD bl.ant2 ⟨0, 0⟩) (freqs.getD c 0) (cube.data t c b)
  else cube.data t c b

/-- Model of `correct_cable_lengths` (src/corrections.rs lines 72-145).
`jones_array.axis_iter_mut(Axis(2))` yields `cube.dimB` baseline views;
`.zip(baselines)` truncates to the shorter operand, so exactly the first
`min cube.dimB ctx.baselines.length` baseline slices are visited and every
other cell is untouched.  `freqs` is `all_freqs_hz`, the provider's
per-fine-channel frequencies for the coarse-channel range (line 84-85). -/
def correct_cable_lengths {K : Type} [CommRing K] (T : Trig K) (ctx : CableCtx K)
    (freqs : List K) (cube : Cube K) : Cube K :=
  { cube with
    data := fun t c b =>
      if b < cube.dimB ∧ b < ctx.baselines.length then
        cableCorrectedCell T ctx freqs cube t c b
      else cube.data t c b }

/-- A geocentric/geodetic coordinate triple (`XyzGeodetic` and precessed
positions). -/
structure Xyz (K : Type) where
  x : K
  y : K
  z : K
deriving DecidableEq

/-- Componentwise difference of positions, modelling
`tiles_xyz_precessed[ant1_idx] - tiles_xyz_precessed[ant2_idx]`
(src/corrections.rs lines 266-267). -/
def xyzSub {K : Type} [CommRing K] (a b : Xyz K) : Xyz K :=
  ⟨a.x - b.x, a.y - b.y, a.z - b.z⟩

/-- The zero position vector. -/
def xyzZero {K : Type} [CommRing K] : Xyz K := ⟨0, 0, 0⟩

/-- The metadata and external precession results consumed by
`correct_geometry` (src/corrections.rs lines 197-283).  The epoch
computation (line 248-249), `precess_time` (lines 251-256) and
`precess_xyz_parallel` (line 258) live in the external `mwa_rust_core`
crate and depend only on the timestep, so their composite output, the
precessed tile positions, is taken as per-timestep input data
(`precessedTiles`).  Likewise `UVW::from_xyz(xyz, prec_info.hadec_j2000).w`
(line 268) is the external projection of the baseline vector onto the w
axis of the basis determined by the precessed pointing (spec section 4.4);
`wDir` is that per-timestep w-axis direction and the projection is the dot
product `wOf`. -/
structure GeomCtx (K : Type) where
  baselines : List Baseline
  numTimesteps : Nat
  precessedTiles : Nat → List (Xyz K)
  wDir : Nat → Xyz K

/-- Dot product with the w-axis direction: the w component of
`UVW::from_xyz` (external collaborator, linear in the position
argument). -/
def wOf {K : Type} [CommRing K] (d v : Xyz K) : K :=
  d.x * v.x + d.y * v.y + d.z * v.z

/-- The precessed baseline vector of src/corrections.rs lines 266-267 for
timestep slot `t` and baseline slot `b`. -/
def baselineXyz {K : Type} [CommRing K] (ctx : GeomCtx K) (t b : Nat) : Xyz K :=
  let bl := ctx.baselines.getD b ⟨0, 0⟩
  xyzSub ((ctx.precessedTiles t).getD bl.ant1 xyzZero)
    ((ctx.precessedTiles t).getD bl.ant2 xyzZero)

/-- The phase angle of src/corrections.rs line 271:
`-2.0 * PI * uvw.w * (freq_hz as f64) / VEL_C`. -/
def geomAngle {K : Type} [CommRing K] (T : Trig K) (w f : K) : K :=
  (-2 : K) * T.pi * w * f * T.invC

/-- The rotation factor of src/corrections.rs lines 272-273. -/
def geomRotation {K : Type} [CommRing K] (T : Trig K) (w f : K) : Cplx K :=
  ⟨T.cos (geomAngle T w f), T.sin (geomAngle T w f)⟩

/-- Multiplication of a whole Jones matrix by one complex factor,
modelling `*jones *= Complex::new(cos_angle_f64 as f32, sin_angle_f64 as f32)`
(src/corrections.rs line 273): all four polarization products receive the
same rotation. -/
def mulJonesScalar {K : Type} [CommRing K] (r : Cplx K) (j : Jones K) : Jones K :=
  ⟨cmul j.xx r, cmul j.xy r, cmul j.yx r, cmul j.yy r⟩

/-- Model of `correct_geometry` (src/corrections.rs lines 197-283).
The iteration skeleton is `outer_iter_mut().zip(timesteps)` (truncation on
the timestep axis against the selected timestep slice, whose length is
`ctx.numTimesteps`), then `axis_iter_mut(Axis(1)).zip(baselines)` and
`iter_mut().zip(all_freqs_hz)`; there is no autocorrelation skip.  For an
in-range cell, the w coordinate is computed from the precessed baseline
vector and all four polarization products are rotated by the same
factor. -/
def correct_geometry {K : Type} [CommRing K] (T : Trig K) (ctx : GeomCtx K)
    (freqs : List K) (cube : Cube K) : Cube K :=
  { cube with
    data := fun t c b =>
      if t < cube.dimT ∧ t < ctx.numTimesteps then
        if b < cube.dimB ∧ b < ctx.baselines.length then
          if c < cube.dimC ∧ c < freqs.length then
            mulJonesScalar
              (geomRotation T (wOf (ctx.wDir t) (baselineXyz ctx t b)) (freqs.getD c 0))
              (cube.data t c b)
          else cube.data t c b
        else cube.data t c b
      else cube.data t c b }

/-- A half-open index range `start..stop` (`std::ops::Range<usize>`). -/
structure RRange where
  start : Nat
  stop : Nat
deriving DecidableEq

/-- Length of a half-open range, `Range::len` (0 when `stop ≤ start`). -/
def RRange.len (r : RRange) : Nat := r.stop - r.start

/-- The same-shaped boolean flag cube returned alongside the visibility
cube. -/
structure FlagCube where
  dimT : Nat
  dimC : Nat
  dimB : Nat
  flag : Nat → Nat → Nat → Bool

/-- The metadata-provider interface consumed by `context_to_jones_array`:
`num_corr_fine_chans_per_coarse`, `num_visibility_pols`, and the fallible
HDU read `read_by_baseline_into_buffer(timestep_idx, coarse_chan_idx, buf)`
which on success fills a flat `f32` buffer in
(baseline, fine-channel, polarization, complex-component) order.  The
buffer is modelled as its index function. -/
structure ReadCtx (K : Type) where
  finePerCoarse : Nat
  numPols : Nat
  read : Nat → Nat → Except Unit (Nat → K)

/-- Flat-buffer offset of the first float of (baseline `b`, fine channel
`fine`): `floats_per_chan = num_visibility_pols * 2` (src/lib.rs line 593)
and `floats_per_baseline = floats_per_chan * fine_chans_per_coarse`
(line 594). -/
def hduOffset {K : Type} (ctx : ReadCtx K) (b fine : Nat) : Nat :=
  b * (ctx.numPols * 2 * ctx.finePerCoarse) + fine * (ctx.numPols * 2)

/-- The Jones matrix assembled from eight consecutive buffer floats by the
`_write_hdu_buffer_to_jones_view` macro (src/lib.rs lines 544-549):
`[XX.re, XX.im, XY.re, XY.im, YX.re, YX.im, YY.re, YY.im]`. -/
def jonesOfBuf {K : Type} (buf : Nat → K) (off : Nat) : Jones K :=
  ⟨⟨buf off, buf (off + 1)⟩, ⟨buf (off + 2), buf (off + 3)⟩,
   ⟨buf (off + 4), buf (off + 5)⟩, ⟨buf (off + 6), buf (off + 7)⟩⟩

/-- Model of `context_to_jones_array` (src/lib.rs lines 569-745).

Shape: `(num_timesteps, num_coarse_chans * fine_chans_per_coarse,
mwalib_baseline_indices.len())` (lines 579-588); both cubes start at their
fill values (`Jones::default()` and `false`).

Workers: `axis_chunks_iter_mut(Axis(1), fine_chans_per_coarse)` pairs cube
chunk `i` with coarse channel `ccR.start + i`; inside a chunk, `izip!`
pairs timestep row `j` with timestep `tsR.start + j` (lines 692-707).  On a
successful read, the macro transposes the HDU buffer
(baseline, fine-channel) layout into the cube's (channel, baseline)
layout, copying each value unchanged (lines 713-719); on a failed read
nothing is written and the (timestep, coarse channel) pair goes to the
error channel (lines 721-725), whose collector sets the flag cube to true
over that chunk's full fine-channel x baseline extent (lines 652-689).
Each cell is owned by exactly one worker, so the concurrent run equals
this pointwise description.  The function always ends in
`Ok((jones_array, flag_array))` (line 744): no input validation is
performed, and the baseline indices are only consumed through `len()`. -/
def context_to_jones_array {K : Type} [CommRing K] (ctx : ReadCtx K)
    (tsR ccR : RRange) (blIdxs : List Nat) :
    Except Unit (Cube K × FlagCube) :=
  Except.ok
    ({ dimT := tsR.len
       dimC := ccR.len * ctx.finePerCoarse
       dimB := blIdxs.length
       data := fun t c b =>
         if t < tsR.len ∧ c < ccR.len * ctx.finePerCoarse ∧ b < blIdxs.length then
           match ctx.read (tsR.start + t) (ccR.start + c / ctx.finePerCoarse) with
           | Except.ok buf => jonesOfBuf buf (hduOffset ctx b (c % ctx.finePerCoarse))
           | Except.error _ => jonesZero
         else jonesZero },
     { dimT := tsR.len
       dimC := ccR.len * ctx.finePerCoarse
       dimB := blIdxs.length
       flag := fun t c b =>
         if t < tsR.len ∧ c < ccR.len * ctx.finePerCoarse ∧ b < blIdxs.length then
           match ctx.read (tsR.start + t) (ccR.start + c / ctx.finePerCoarse) with
           | Except.ok _ => false
           | Except.error _ => true
         else false })

/-! Shared helper lemmas. -/

/-- The squared magnitude is multiplicative over complex multiplication. -/
theorem normSq_cmul {K : Type} [CommRing K] (z w : Cplx K) :
    normSq (cmul z w) = normSq z * normSq w := by
  simp only [normSq, cmul]
  ring

/-- For a trig model satisfying the Pythagorean identity (as `Real.cos` and
`Real.sin` do), every cable rotation factor has unit squared magnitude. -/
theorem normSq_cableRotation {K : Type} [CommRing K] (T : Trig K)
    (hT : ∀ θ, T.cos θ * T.cos θ + T.sin θ * T.sin θ = 1) (len f : K) :
    normSq (cableRotation T len f) = 1 := by
  simp only [normSq, cableRotation]
  exact hT _

/-- For a trig model satisfying the Pythagorean identity, every geometric
rotation factor has unit squared magnitude. -/
theorem normSq_geomRotation {K : Type} [CommRing K] (T : Trig K)
    (hT : ∀ θ, T.cos θ * T.cos θ + T.sin θ * T.sin θ = 1) (w f : K) :
    normSq (geomRotation T w f) = 1 := by
  simp only [normSq, geomRotation]
  exact hT _

/-- Componentwise equality of squared magnitudes between two Jones
matrices: each of the four polarization products keeps its complex
magnitude. -/
def magPreserved {K : Type} [CommRing K] (a b : Jones K) : Prop :=
  normSq a.xx = normSq b.xx ∧ normSq a.xy = normSq b.xy ∧
  normSq a.yx = normSq b.yx ∧ normSq a.yy = normSq b.yy

theorem magPreserved_refl {K : Type} [CommRing K] (a : Jones K) : magPreserved a a :=
  ⟨rfl, rfl, rfl, rfl⟩

/-! Concrete instances used by witnesses and counterexamples (scalar ring
`ℤ`, so every evaluation is decidable). -/

/-- A trig model over `ℤ` that satisfies the Pythagorean identity. -/
def Tpyth : Trig ℤ := ⟨fun _ => 1, fun _ => 0, 1, 1⟩

/-- A trig model over `ℤ` whose cosine is the identity, exposing the angle
that a rotation was computed from in the rotated value itself. -/
def Tlin : Trig ℤ := ⟨fun θ => θ, fun _ => 0, 1, 1⟩

/-- A trig model over `ℤ` with `cos 0 = 5`: multiplying by its zero-angle
rotation factor visibly changes a sample. -/
def Tshift : Trig ℤ := ⟨fun θ => θ + 5, fun θ => θ + 3, 1, 1⟩

/-- Antenna with distinct X and Y electrical lengths (0 m and 1 m). -/
def antA : Antenna ℤ := ⟨0, 1⟩

/-- Antenna with distinct X and Y electrical lengths (2 m and 3 m). -/
def antB : Antenna ℤ := ⟨2, 3⟩

/-- A Jones sample whose components are pairwise distinct units. -/
def jonesW : Jones ℤ := ⟨⟨1, 0⟩, ⟨0, 1⟩, ⟨-1, 0⟩, ⟨0, -1⟩⟩

/-- Cable-correction context: two antennas, an autocorrelation baseline
(0,0) and a cross-correlation baseline (0,1). -/
def ctxA : CableCtx ℤ := ⟨[antA, antB], [⟨0, 0⟩, ⟨0, 1⟩]⟩

/-- A 2 x 2 x 2 cube holding `jonesW` everywhere. -/
def cubeA : Cube ℤ := ⟨2, 2, 2, fun _ _ _ => jonesW⟩

/-- Cable-correction context with a single cross-correlation baseline
(0,1) between antennas of unequal X/Y electrical lengths. -/
def ctxBug : CableCtx ℤ := ⟨[antA, antB], [⟨0, 1⟩]⟩

/-- A 1 x 1 x 1 cube. -/
def cubeBug : Cube ℤ := ⟨1, 1, 1, fun _ _ _ => jonesW⟩

/-! Claim theorems for the correction engine. -/

/-- C1 (code bug evaluation): on antennas whose X and Y electrical lengths
differ, `correct_cable_lengths` rotates the XY product with the YY length
difference `len(a2,Y) - len(a1,Y)`, not the claimed `len(a2,Y) - len(a1,X)`;
the YX product with the XY difference, not the claimed YX difference; and
the YY product with the YX difference, not the claimed YY difference.
Evaluated with the angle-exposing trig model at frequency 1. -/
theorem cable_pol_pairing_code_bug :
    (((correct_cable_lengths Tlin ctxBug [1] cubeBug).data 0 0 0).xy =
        cmul (cubeBug.data 0 0 0).xy (cableRotation Tlin (antB.lenY - antA.lenY) 1) ∧
      ((correct_cable_lengths Tlin ctxBug [1] cubeBug).data 0 0 0).xy ≠
        cmul (cubeBug.data 0 0 0).xy (cableRotation Tlin (antB.lenY - antA.lenX) 1)) ∧
    (((correct_cable_lengths Tlin ctxBug [1] cubeBug).data 0 0 0).yx =
        cmul (cubeBug.data 0 0 0).yx (cableRotation Tlin (antB.lenY - antA.lenX) 1) ∧
      ((correct_cable_lengths Tlin ctxBug [1] cubeBug).data 0 0 0).yx ≠
        cmul (cubeBug.data 0 0 0).yx (cableRotation Tlin (antB.lenX - antA.lenY) 1)) ∧
    (((correct_cable_lengths Tlin ctxBug [1] cubeBug).data 0 0 0).yy =
        cmul (cubeBug.data 0 0 0).yy (cableRotation Tlin (antB.lenX - antA.lenY) 1) ∧
      ((correct_cable_lengths Tlin ctxBug [1] cubeBug).data 0 0 0).yy ≠
        cmul (cubeBug.data 0 0 0).yy (cableRotation Tlin (antB.lenY - antA.lenY) 1)) := by
  decide

/-- C4: whenever the baseline paired with cube slice `b` is an
autocorrelation (`ant1_index == ant2_index`), `correct_cable_lengths`
leaves every (timestep, channel) sample of that slice bit-identical
(src/corrections.rs lines 105-107). -/
theorem cable_autocorrelation_unchanged {K : Type} [CommRing K] (T : Trig K)
    (ctx : CableCtx K) (freqs : List K) (cube : Cube K) (t c b : Nat)
    (hauto : (ctx.baselines.getD b ⟨0, 0⟩).ant1 = (ctx.baselines.getD b ⟨0, 0⟩).ant2) :
    (correct_cable_lengths T ctx freqs cube).data t c b = cube.data t c b := by
  simp only [correct_cable_lengths, cableCorrectedCell]
  split
  · simp [hauto]
  · rfl

theorem cable_autocorrelation_unchanged_witness :
    (ctxA.baselines.getD 0 ⟨0, 0⟩).ant1 = (ctxA.baselines.getD 0 ⟨0, 0⟩).ant2 ∧
    (correct_cable_lengths Tshift ctxA [7, 9] cubeA).data 1 1 0 = cubeA.data 1 1 0 :=
  ⟨by decide, cable_autocorrelation_unchanged Tshift ctxA [7, 9] cubeA 1 1 0 (by decide)⟩

/-- C10: when the cube's baseline-axis length and the context's baseline
table length differ, `correct_cable_lengths` still returns a well-defined
cube of unchanged dimensions (no panic, no error value); the
`axis_iter_mut(Axis(2)).zip(baselines)` pairing truncates to the shorter
side, so cells of the first `min` baseline slices receive the per-baseline
correction body and every other cell is left untouched. -/
theorem cable_baseline_zip_truncation {K : Type} [CommRing K] (T : Trig K)
    (ctx : CableCtx K) (freqs : List K) (cube : Cube K)
    (_hmis : cube.dimB ≠ ctx.baselines.length) :
    ((correct_cable_lengths T ctx freqs cube).dimT = cube.dimT ∧
      (correct_cable_lengths T ctx freqs cube).dimC = cube.dimC ∧
      (correct_cable_lengths T ctx freqs cube).dimB = cube.dimB) ∧
    (∀ t c b, min cube.dimB ctx.baselines.length ≤ b →
      (correct_cable_lengths T ctx freqs cube).data t c b = cube.data t c b) ∧
    (∀ t c b, b < min cube.dimB ctx.baselines.length →
      (correct_cable_lengths T ctx freqs cube).data t c b =
        cableCorrectedCell T ctx freqs cube t c b) := by
  refine ⟨⟨rfl, rfl, rfl⟩, ?_, ?_⟩
  · intro t c b hb
    simp only [correct_cable_lengths]
    rw [if_neg]
    intro hlt
    exact absurd (Nat.lt_min.mpr hlt) (Nat.not_lt.mpr hb)
  · intro t c b hb
    simp only [correct_cable_lengths]
    rw [if_pos (Nat.lt_min.mp hb)]

theorem cable_baseline_zip_truncation_witness :
    cubeBug.dimB ≠ ctxA.baselines.length ∧
    (correct_cable_lengths Tshift ctxA [7] cubeBug).data 0 0 1 = cubeBug.data 0 0 1 ∧
    (correct_cable_lengths Tshift ctxA [7] cubeBug).data 0 0 0 =
      cableCorrectedCell Tshift ctxA [7] cubeBug 0 0 0 :=
  ⟨by decide,
   (cable_baseline_zip_truncation Tshift ctxA [7] cubeBug (by decide)).2.1 0 0 1 (by decide),
   (cable_baseline_zip_truncation Tshift ctxA [7] cubeBug (by decide)).2.2 0 0 0 (by decide)⟩

/-- C6: the cable-length rotation applied to a given (baseline,
polarization product, fine channel) is the same for every timestep — the
rotation factors below are functions of `(b, c)` only, with the timestep
`t` universally quantified after them — and the geometric rotation applied
to a given (timestep, baseline, fine channel) is one complex factor shared
by all four polarization products of that sample. -/
theorem rotation_determinism {K : Type} [CommRing K] (T : Trig K)
    (cctx : CableCtx K) (gctx : GeomCtx K) (freqs gfreqs : List K)
    (cube gcube : Cube K) (c b tg cg bg : Nat)
    (hb : b < cube.dimB) (hbl : b < cctx.baselines.length)
    (hauto : (cctx.baselines.getD b ⟨0, 0⟩).ant1 ≠ (cctx.baselines.getD b ⟨0, 0⟩).ant2)
    (hc : c < cube.dimC) (hcf : c < freqs.length)
    (htg : tg < gcube.dimT) (htg2 : tg < gctx.numTimesteps)
    (hbg : bg < gcube.dimB) (hbg2 : bg < gctx.baselines.length)
    (hcg : cg < gcube.dimC) (hcg2 : cg < gfreqs.length) :
    (∀ t, (correct_cable_lengths T cctx freqs cube).data t c b =
      correctedJones T
        (cctx.antennas.getD (cctx.baselines.getD b ⟨0, 0⟩).ant1 ⟨0, 0⟩)
        (cctx.antennas.getD (cctx.baselines.getD b ⟨0, 0⟩).ant2 ⟨0, 0⟩)
        (freqs.getD c 0) (cube.data t c b)) ∧
    (∃ r : Cplx K,
      ((correct_geometry T gctx gfreqs gcube).data tg cg bg).xx =
        cmul (gcube.data tg cg bg).xx r ∧
      ((correct_geometry T gctx gfreqs gcube).data tg cg bg).xy =
        cmul (gcube.data tg cg bg).xy r ∧
      ((correct_geometry T gctx gfreqs gcube).data tg cg bg).yx =
        cmul (gcube.data tg cg bg).yx r ∧
      ((correct_geometry T gctx gfreqs gcube).data tg cg bg).yy =
        cmul (gcube.data tg cg bg).yy r) := by
  constructor
  · intro t
    simp only [correct_cable_lengths, cableCorrectedCell]
    rw [if_pos ⟨hb, hbl⟩, if_neg hauto, if_pos ⟨hc, hcf⟩]
  · refine ⟨geomRotation T (wOf (gctx.wDir tg) (baselineXyz gctx tg bg)) (gfreqs.getD cg 0),
      ?_, ?_, ?_, ?_⟩ <;>
    · simp only [correct_geometry, baselineXyz]
      rw [if_pos ⟨htg, htg2⟩, if_pos ⟨hbg, hbg2⟩, if_pos ⟨hcg, hcg2⟩]
      rfl

/-- Per-timestep precessed positions and pointing for the witness geometry
context: two tiles at distinct positions, moving with the timestep. -/
def gctxW : GeomCtx ℤ :=
  ⟨[⟨0, 0⟩, ⟨0, 1⟩], 2,
   fun t => [⟨1 + (t : ℤ), 2, 3⟩, ⟨4, 5 + (t : ℤ), 6⟩],
   fun t => ⟨1, (t : ℤ), 1⟩⟩

/-- A 2 x 2 x 2 cube for the geometry witnesses. -/
def gcubeW : Cube ℤ := ⟨2, 2, 2, fun _ _ _ => jonesW⟩

theorem rotation_determinism_witness :
    ((correct_cable_lengths Tshift ctxA [7, 9] cubeA).data 0 1 1 =
      correctedJones Tshift
        (ctxA.antennas.getD (ctxA.baselines.getD 1 ⟨0, 0⟩).ant1 ⟨0, 0⟩)
        (ctxA.antennas.getD (ctxA.baselines.getD 1 ⟨0, 0⟩).ant2 ⟨0, 0⟩)
        ([7, 9].getD 1 0) (cubeA.data 0 1 1)) ∧
    (∃ r : Cplx ℤ,
      ((correct_geometry Tshift gctxW [7, 9] gcubeW).data 1 0 1).xx =
        cmul (gcubeW.data 1 0 1).xx r ∧
      ((correct_geometry Tshift gctxW [7, 9] gcubeW).data 1 0 1).xy =
        cmul (gcubeW.data 1 0 1).xy r ∧
      ((correct_geometry Tshift gctxW [7, 9] gcubeW).data 1 0 1).yx =
        cmul (gcubeW.data 1 0 1).yx r ∧
      ((correct_geometry Tshift gctxW [7, 9] gcubeW).data 1 0 1).yy =
        cmul (gcubeW.data 1 0 1).yy r) :=
  ⟨(rotation_determinism Tshift ctxA gctxW [7, 9] [7, 9] cubeA gcubeW 1 1 1 0 1
      (by decide) (by decide) (by decide) (by decide) (by decide) (by decide)
      (by decide) (by decide) (by decide) (by decide) (by decide)).1 0,
   (rotation_determinism Tshift ctxA gctxW [7, 9] [7, 9] cubeA gcubeW 1 1 1 0 1
      (by decide) (by decide) (by decide) (by decide) (by decide) (by decide)
      (by decide) (by decide) (by decide) (by decide) (by decide)).2⟩

/-- C3: for any trig model satisfying the Pythagorean identity (in
particular the real `sin`/`cos` used by the code), both
`correct_cable_lengths` and `correct_geometry` preserve the squared
magnitude of every polarization component of every cube cell: each
transform multiplies by a unit-modulus factor `cos θ + i sin θ` or leaves
the cell untouched.  In the idealized (exact-arithmetic) model the claimed
float-epsilon bound becomes exact equality. -/
theorem corrections_preserve_magnitudes {K : Type} [CommRing K] (T : Trig K)
    (hT : ∀ θ, T.cos θ * T.cos θ + T.sin θ * T.sin θ = 1)
    (cctx : CableCtx K) (freqs : List K) (cube : Cube K)
    (gctx : GeomCtx K) (gfreqs : List K) (gcube : Cube K) :
    (∀ t c b, magPreserved ((correct_cable_lengths T cctx freqs cube).data t c b)
      (cube.data t c b)) ∧
    (∀ t c b, magPreserved ((correct_geometry T gctx gfreqs gcube).data t c b)
      (gcube.data t c b)) := by
  constructor
  · intro t c b
    simp only [correct_cable_lengths, cableCorrectedCell]
    split
    · split
      · exact magPreserved_refl _
      · split
        · refine ⟨?_, ?_, ?_, ?_⟩ <;>
          · simp only [correctedJones, normSq_cmul, normSq_cableRotation T hT, mul_one]
        · exact magPreserved_refl _
    · exact magPreserved_refl _
  · intro t c b
    simp only [correct_geometry]
    split
    · split
      · split
        · refine ⟨?_, ?_, ?_, ?_⟩ <;>
          · simp only [mulJonesScalar, normSq_cmul, normSq_geomRotation T hT, mul_one]
        · exact magPreserved_refl _
      · exact magPreserved_refl _
    · exact magPreserved_refl _

theorem corrections_preserve_magnitudes_witness :
    magPreserved ((correct_cable_lengths Tpyth ctxA [7, 9] cubeA).data 0 1 1)
      (cubeA.data 0 1 1) ∧
    magPreserved ((correct_geometry Tpyth gctxW [7, 9] gcubeW).data 1 0 1)
      (gcubeW.data 1 0 1) :=
  ⟨(corrections_preserve_magnitudes Tpyth (fun θ => by simp [Tpyth])
      ctxA [7, 9] cubeA gctxW [7, 9] gcubeW).1 0 1 1,
   (corrections_preserve_magnitudes Tpyth (fun θ => by simp [Tpyth])
      ctxA [7, 9] cubeA gctxW [7, 9] gcubeW).2 1 0 1⟩

/-- C9: `correct_geometry` has no autocorrelation skip.  For a baseline
whose two antenna indices coincide, the precessed-position difference of
the antenna with itself makes the w coordinate zero, and the sample is
still multiplied — componentwise, all four polarization products — by the
zero-angle rotation factor `cos 0 + i sin 0` instead of being left
untouched.  (At the real trig instantiation that factor is `1 + 0i`; the
sample passes through the multiply rather than being skipped as in
`correct_cable_lengths`.) -/
theorem geometry_no_auto_skip {K : Type} [CommRing K] (T : Trig K)
    (ctx : GeomCtx K) (freqs : List K) (cube : Cube K) (t c b : Nat)
    (ht : t < cube.dimT) (ht2 : t < ctx.numTimesteps)
    (hb : b < cube.dimB) (hb2 : b < ctx.baselines.length)
    (hc : c < cube.dimC) (hc2 : c < freqs.length)
    (hauto : (ctx.baselines.getD b ⟨0, 0⟩).ant1 = (ctx.baselines.getD b ⟨0, 0⟩).ant2) :
    wOf (ctx.wDir t) (baselineXyz ctx t b) = 0 ∧
    (correct_geometry T ctx freqs cube).data t c b =
      mulJonesScalar ⟨T.cos 0, T.sin 0⟩ (cube.data t c b) := by
  have hxyz : baselineXyz ctx t b = xyzZero := by
    simp only [baselineXyz, hauto, xyzSub, xyzZero, sub_self]
  have hw : wOf (ctx.wDir t) (baselineXyz ctx t b) = 0 := by
    rw [hxyz]
    simp [wOf, xyzZero]
  refine ⟨hw, ?_⟩
  simp only [correct_geometry]
  rw [if_pos ⟨ht, ht2⟩, if_pos ⟨hb, hb2⟩, if_pos ⟨hc, hc2⟩]
  have hangle : geomAngle T (wOf (ctx.wDir t) (baselineXyz ctx t b)) (freqs.getD c 0) = 0 := by
    rw [hw]
    simp [geomAngle]
  simp only [geomRotation, hangle]

/-- Geometry context whose only baseline is the autocorrelation (1,1). -/
def gctxAuto : GeomCtx ℤ :=
  ⟨[⟨1, 1⟩], 2,
   fun t => [⟨1 + (t : ℤ), 2, 3⟩, ⟨4, 5 + (t : ℤ), 6⟩],
   fun t => ⟨1, (t : ℤ), 1⟩⟩

/-- A 2 x 2 x 1 cube for the autocorrelation witness. -/
def gcubeAuto : Cube ℤ := ⟨2, 2, 1, fun _ _ _ => jonesW⟩

theorem geometry_no_auto_skip_witness :
    (wOf (gctxAuto.wDir 1) (baselineXyz gctxAuto 1 0) = 0 ∧
      (correct_geometry Tshift gctxAuto [7, 9] gcubeAuto).data 1 0 0 =
        mulJonesScalar ⟨Tshift.cos 0, Tshift.sin 0⟩ (gcubeAuto.data 1 0 0)) ∧
    (correct_geometry Tshift gctxAuto [7, 9] gcubeAuto).data 1 0 0 ≠ gcubeAuto.data 1 0 0 :=
  ⟨geometry_no_auto_skip Tshift gctxAuto [7, 9] gcubeAuto 1 0 0
      (by decide) (by decide) (by decide) (by decide) (by decide) (by decide) (by decide),
   by decide⟩

/-! Claim theorems for the visibility cube builder. -/

/-- Division helper: the cube channel index `cc * fpc + fine` of fine
channel `fine` of selected coarse channel `cc` maps back to chunk `cc`. -/
theorem chanDiv {fpc : Nat} (hfpc : 0 < fpc) (cc fine : Nat) (hfine : fine < fpc) :
    (cc * fpc + fine) / fpc = cc := by
  rw [Nat.add_comm, Nat.add_mul_div_right _ _ hfpc, Nat.div_eq_of_lt hfine, Nat.zero_add]

/-- Modulus helper: the cube channel index `cc * fpc + fine` has fine-channel
offset `fine` inside its chunk. -/
theorem chanMod {fpc : Nat} (cc fine : Nat) (hfine : fine < fpc) :
    (cc * fpc + fine) % fpc = fine := by
  rw [Nat.mul_comm, Nat.mul_add_mod, Nat.mod_eq_of_lt hfine]

/-- Bound helper: the cube channel index of an in-range (coarse, fine) pair
is below the channel-axis extent. -/
theorem chanLt {fpc ncc : Nat} (cc fine : Nat) (hcc : cc < ncc) (hfine : fine < fpc) :
    cc * fpc + fine < ncc * fpc := by
  calc cc * fpc + fine < cc * fpc + fpc := Nat.add_lt_add_left hfine _
    _ = (cc + 1) * fpc := (Nat.succ_mul cc fpc).symm
    _ ≤ ncc * fpc := Nat.mul_le_mul_right fpc hcc

/-- C5: the visibility cube and the flag cube returned by
`context_to_jones_array` both have shape
`(timestep-range length, coarse-range length * fine channels per coarse,
number of baseline indices)` (src/lib.rs lines 579-588), and the two
arrays always have identical shape. -/
theorem jones_array_shapes {K : Type} [CommRing K] (ctx : ReadCtx K)
    (tsR ccR : RRange) (blIdxs : List Nat) (cube : Cube K) (flags : FlagCube)
    (_hfpc : 0 < ctx.finePerCoarse)
    (h : context_to_jones_array ctx tsR ccR blIdxs = Except.ok (cube, flags)) :
    (cube.dimT = tsR.len ∧ cube.dimC = ccR.len * ctx.finePerCoarse ∧
      cube.dimB = blIdxs.length) ∧
    (flags.dimT = cube.dimT ∧ flags.dimC = cube.dimC ∧ flags.dimB = cube.dimB) := by
  injection h with h1
  obtain ⟨h2, h3⟩ := Prod.mk.inj h1
  subst h2
  subst h3
  exact ⟨⟨rfl, rfl, rfl⟩, ⟨rfl, rfl, rfl⟩⟩

/-- A concrete provider over `ℤ`: 2 fine channels per coarse, 4 visibility
polarizations; the HDU read fails exactly at (timestep 1, coarse channel
0) and otherwise returns the buffer whose value at flat index `i` is
`i`. -/
def rctxW : ReadCtx ℤ :=
  ⟨2, 4, fun t cc =>
    match t, cc with
    | 1, 0 => Except.error ()
    | _, _ => Except.ok fun i => (i : ℤ)⟩

theorem jones_array_shapes_witness :
    ∃ cube flags,
      context_to_jones_array rctxW ⟨0, 2⟩ ⟨0, 1⟩ [0, 0, 0] = Except.ok (cube, flags) ∧
      ((cube.dimT = RRange.len ⟨0, 2⟩ ∧
        cube.dimC = RRange.len ⟨0, 1⟩ * rctxW.finePerCoarse ∧
        cube.dimB = [0, 0, 0].length) ∧
       (flags.dimT = cube.dimT ∧ flags.dimC = cube.dimC ∧ flags.dimB = cube.dimB)) :=
  ⟨_, _, rfl, jones_array_shapes rctxW ⟨0, 2⟩ ⟨0, 1⟩ [0, 0, 0] _ _ (by decide) rfl⟩

/-- C2: when the provider's read fails for selected (timestep slot `t`,
coarse channel slot `cc`), the call still returns `Ok`, the flag cube is
true at every fine channel of that coarse channel and every baseline of
that timestep, and the corresponding visibility cells keep their zero
fill (src/lib.rs lines 652-689 and 721-744). -/
theorem missing_hdu_flagged_and_ok {K : Type} [CommRing K] (ctx : ReadCtx K)
    (tsR ccR : RRange) (blIdxs : List Nat) (t cc b fine : Nat) (e : Unit)
    (hfpc : 0 < ctx.finePerCoarse)
    (ht : t < tsR.len) (hcc : cc < ccR.len) (hb : b < blIdxs.length)
    (hfine : fine < ctx.finePerCoarse)
    (herr : ctx.read (tsR.start + t) (ccR.start + cc) = Except.error e) :
    ∃ cube flags,
      context_to_jones_array ctx tsR ccR blIdxs = Except.ok (cube, flags) ∧
      flags.flag t (cc * ctx.finePerCoarse + fine) b = true ∧
      cube.data t (cc * ctx.finePerCoarse + fine) b = jonesZero := by
  refine ⟨_, _, rfl, ?_, ?_⟩ <;>
  · show (if _ ∧ _ ∧ _ then _ else _) = _
    rw [if_pos ⟨ht, chanLt cc fine hcc hfine, hb⟩, chanDiv hfpc cc fine hfine, herr]

theorem missing_hdu_flagged_and_ok_witness :
    ∃ cube flags,
      context_to_jones_array rctxW ⟨0, 2⟩ ⟨0, 1⟩ [0, 0, 0] = Except.ok (cube, flags) ∧
      flags.flag 1 (0 * rctxW.finePerCoarse + 1) 2 = true ∧
      cube.data 1 (0 * rctxW.finePerCoarse + 1) 2 = jonesZero :=
  missing_hdu_flagged_and_ok rctxW ⟨0, 2⟩ ⟨0, 1⟩ [0, 0, 0] 1 0 2 1 ()
    (by decide) (by decide) (by decide) (by decide) (by decide) rfl

/-- C7: when the provider's read succeeds for selected (timestep slot `t`,
coarse channel slot `cc`), the builder copies each complex component of
the provider's flat (baseline, fine-channel, polarization,
complex-component) buffer unchanged into the cube cell at
`(t, cc * fine_per_coarse + fine, b)` — a pure layout transpose of the
eight floats starting at offset
`b * (num_pols * 2 * fine_per_coarse) + fine * (num_pols * 2)` — and the
cell is not flagged; the call returns `Ok` (src/lib.rs lines 528-554 and
692-744). -/
theorem hdu_success_copied {K : Type} [CommRing K] (ctx : ReadCtx K)
    (tsR ccR : RRange) (blIdxs : List Nat) (t cc b fine : Nat) (buf : Nat → K)
    (hfpc : 0 < ctx.finePerCoarse)
    (ht : t < tsR.len) (hcc : cc < ccR.len) (hb : b < blIdxs.length)
    (hfine : fine < ctx.finePerCoarse)
    (hok : ctx.read (tsR.start + t) (ccR.start + cc) = Except.ok buf) :
    ∃ cube flags,
      context_to_jones_array ctx tsR ccR blIdxs = Except.ok (cube, flags) ∧
      cube.data t (cc * ctx.finePerCoarse + fine) b =
        jonesOfBuf buf
          (b * (ctx.numPols * 2 * ctx.finePerCoarse) + fine * (ctx.numPols * 2)) ∧
      flags.flag t (cc * ctx.finePerCoarse + fine) b = false := by
  refine ⟨_, _, rfl, ?_, ?_⟩
  · show (if _ ∧ _ ∧ _ then _ else _) = _
    rw [if_pos ⟨ht, chanLt cc fine hcc hfine, hb⟩, chanDiv hfpc cc fine hfine,
      chanMod cc fine hfine, hok]
    rfl
  · show (if _ ∧ _ ∧ _ then _ else _) = _
    rw [if_pos ⟨ht, chanLt cc fine hcc hfine, hb⟩, chanDiv hfpc cc fine hfine, hok]

theorem hdu_success_copied_witness :
    ∃ cube flags,
      context_to_jones_array rctxW ⟨0, 2⟩ ⟨0, 1⟩ [0, 0, 0] = Except.ok (cube, flags) ∧
      cube.data 0 (0 * rctxW.finePerCoarse + 1) 2 =
        jonesOfBuf (fun i => (i : ℤ))
          (2 * (rctxW.numPols * 2 * rctxW.finePerCoarse) + 1 * (rctxW.numPols * 2)) ∧
      flags.flag 0 (0 * rctxW.finePerCoarse + 1) 2 = false :=
  hdu_success_copied rctxW ⟨0, 2⟩ ⟨0, 1⟩ [0, 0, 0] 0 0 2 1 (fun i => (i : ℤ))
    (by decide) (by decide) (by decide) (by decide) (by decide) rfl

/-- C8 (counterexample): at a configuration the claim calls a
configuration/selection error — an empty timestep range `3..3` together
with the out-of-bounds baseline index 99 — `context_to_jones_array` does
not return an error: it returns `Ok` with a zero-extent cube. -/
theorem config_error_returns_ok_counterexample :
    ∃ cube flags,
      context_to_jones_array rctxW ⟨3, 3⟩ ⟨0, 1⟩ [99] = Except.ok (cube, flags) ∧
      cube.dimT = 0 :=
  ⟨_, _, rfl, rfl⟩

/-- C8 (amended): `context_to_jones_array` performs no configuration or
selection validation at all.  For every input — including empty timestep
or coarse-channel ranges — it returns `Ok`; and the baseline indices are
consumed only through their count, so two index lists of equal length
(hence any out-of-bounds index) produce identical results. -/
theorem no_validation_always_ok {K : Type} [CommRing K] (ctx : ReadCtx K)
    (tsR ccR : RRange) (blIdxs : List Nat) :
    (∃ cube flags, context_to_jones_array ctx tsR ccR blIdxs = Except.ok (cube, flags)) ∧
    (∀ blIdxs2 : List Nat, blIdxs.length = blIdxs2.length →
      context_to_jones_array ctx tsR ccR blIdxs =
        context_to_jones_array ctx tsR ccR blIdxs2) := by
  refine ⟨⟨_, _, rfl⟩, ?_⟩
  intro blIdxs2 hlen
  simp only [context_to_jones_array, hlen]

theorem no_validation_always_ok_witness :
    context_to_jones_array rctxW ⟨3, 3⟩ ⟨0, 1⟩ [3] =
      context_to_jones_array rctxW ⟨3, 3⟩ ⟨0, 1⟩ [99] :=
  (no_validation_always_ok rctxW ⟨3, 3⟩ ⟨0, 1⟩ [3]).2 [99] rfl

end Birli
